import Mathlib

/-!
Shallow embedding of the slide-deck generation/editing application
(`app.py` and `slide_agent.py`): Python string primitives, the deck data
model, the revision manager, the two-pass edit application algorithm, the
generation-with-validation retry loop, the title shortcut, and the
validator response parser, together with theorems checking the
specification's claims about them.

Python strings are modelled as Lean `String`s; the handful of Python
string methods the source uses (`strip`, `split`, `startswith`,
`replace`, `lower`, substring containment, whitespace word-split) are
given executable structural definitions over the character list so that
every function in the development evaluates inside the kernel.
-/

/-- Python `str.strip()` on the character list: drop whitespace from both ends. -/
def pyStripChars (l : List Char) : List Char :=
  ((l.dropWhile Char.isWhitespace).reverse.dropWhile Char.isWhitespace).reverse

/-- Python `s.strip()`. -/
def pyStrip (s : String) : String := ⟨pyStripChars s.data⟩

/-- Helper for Python `s.split("\n")`: split the character list at newline characters. -/
def pySplitLinesAux : List Char → List Char → List (List Char)
  | [], acc => [acc.reverse]
  | c :: rest, acc =>
    if c == '\n' then acc.reverse :: pySplitLinesAux rest []
    else pySplitLinesAux rest (c :: acc)

/-- Python `s.split("\n")`. -/
def pySplitLines (s : String) : List String :=
  (pySplitLinesAux s.data []).map String.mk

/-- Python `s.startswith(pre)`. -/
def pyStartswith (s pre : String) : Bool := pre.data.isPrefixOf s.data

/-- Helper for Python `s.replace(pat, rep)`: left-to-right non-overlapping
replacement, with an explicit fuel bound (the length of the input) so the
recursion is structural. -/
def pyReplaceAux (pat rep : List Char) : Nat → List Char → List Char
  | _, [] => []
  | 0, l => l
  | fuel + 1, c :: rest =>
    if pat.isPrefixOf (c :: rest) then
      rep ++ pyReplaceAux pat rep fuel ((c :: rest).drop pat.length)
    else c :: pyReplaceAux pat rep fuel rest

/-- Python `s.replace(pat, rep)` for a non-empty pattern (the source only
replaces non-empty literals). -/
def pyReplace (s pat rep : String) : String :=
  if pat.data.isEmpty then s else ⟨pyReplaceAux pat.data rep.data s.data.length s.data⟩

/-- Helper for Python `sub in s`. -/
def pyContainsAux (pat : List Char) : List Char → Bool
  | [] => pat.isEmpty
  | c :: rest => pat.isPrefixOf (c :: rest) || pyContainsAux pat rest

/-- Python `sub in s` (substring containment). -/
def pyContains (s sub : String) : Bool := pyContainsAux sub.data s.data

/-- Python `s.lower()` (ASCII case folding; Hebrew characters are unaffected). -/
def pyLower (s : String) : String := ⟨s.data.map Char.toLower⟩

/-- Helper for Python `s.split()`: cut at each whitespace character. -/
def pySplitWsAux : List Char → List Char → List (List Char)
  | [], acc => [acc.reverse]
  | c :: rest, acc =>
    if Char.isWhitespace c then acc.reverse :: pySplitWsAux rest []
    else pySplitWsAux rest (c :: acc)

/-- Python `" ".join(s.split())`: collapse whitespace runs to single spaces
and trim the ends. -/
def pyJoinSplit (s : String) : String :=
  ⟨List.intercalate [' '] ((pySplitWsAux s.data []).filter (fun p => ¬p.isEmpty))⟩

/-! ## Data model (spec §3, `app.py` / template JSON) -/

/-- One object of a slide (`slide_objects` entries of the template JSON). -/
structure SlideObject where
  object_id : String
  object_name : String
  object_description : String
  generated_content : String
  validation_status : String
  validation_attempts : Nat
deriving DecidableEq

/-- One slide of the deck. -/
structure Slide where
  slide_num : Nat
  slide_description : String
  slide_objects : List SlideObject
  generation_status : String
deriving DecidableEq

/-- The deck skeleton: `{slides: [Slide]}`. -/
structure Skeleton where
  slides : List Slide
deriving DecidableEq

/-! ## RevisionManager (`app.py` lines 15-62) -/

/-- `MAX_REVISIONS = 30` (`app.py` line 12). -/
def MAX_REVISIONS : Nat := 30

/-- One revision entry (`save_revision`'s dict). The snapshot is a deep
copy in the source; under Lean's value semantics the stored value is the
snapshot. -/
structure Revision where
  revision_id : Nat
  timestamp : String
  action : String
  description : String
  snapshot : Skeleton
deriving DecidableEq

/-- The revision manager's state: the retained list and the id counter. -/
structure RevisionManager where
  revisions : List Revision
  current_revision_id : Nat
deriving DecidableEq

/-- `RevisionManager.__init__`: empty history, counter 0. -/
def RevisionManager.init : RevisionManager := ⟨[], 0⟩

/-- `RevisionManager.save_revision`.  `now` stands for the
`datetime.now()` timestamp string, passed explicitly.  Returns the new
manager state and the returned revision id.  The pruning line
`self.revisions = [self.revisions[0]] + self.revisions[-(MAX_REVISIONS - 1):]`
is `take 1 ++ drop (len - (MAX_REVISIONS - 1))` (the list has more than
`MAX_REVISIONS ≥ 1` elements when it runs, so the negative slice is the
last `MAX_REVISIONS - 1` elements). -/
def RevisionManager.save_revision (rm : RevisionManager) (skeleton : Skeleton)
    (action description now : String) : RevisionManager × Nat :=
  let new_id := rm.current_revision_id + 1
  let revision : Revision :=
    { revision_id := new_id, timestamp := now, action := action,
      description := description, snapshot := skeleton }
  let revs := rm.revisions ++ [revision]
  let revs :=
    if MAX_REVISIONS < revs.length then
      revs.take 1 ++ revs.drop (revs.length - (MAX_REVISIONS - 1))
    else revs
  ({ revisions := revs, current_revision_id := new_id }, new_id)

/-- `RevisionManager.get_revision`: linear search for an exact id match. -/
def RevisionManager.get_revision (rm : RevisionManager) (revision_id : Nat) : Option Revision :=
  rm.revisions.find? (fun rev => rev.revision_id == revision_id)

/-- `RevisionManager.restore_revision`: a deep copy of the found
revision's snapshot, or `none`. -/
def RevisionManager.restore_revision (rm : RevisionManager) (revision_id : Nat) : Option Skeleton :=
  (rm.get_revision revision_id).map Revision.snapshot

/-- `RevisionManager.reset`. -/
def RevisionManager.reset (_ : RevisionManager) : RevisionManager := ⟨[], 0⟩

/-- A sequence of `save_revision` calls (skeleton, action, description,
timestamp per call); returns the final manager state and the list of
returned revision ids in call order. -/
def saveSeq : RevisionManager → List (Skeleton × String × String × String) → RevisionManager × List Nat
  | rm, [] => (rm, [])
  | rm, (sk, a, d, now) :: rest =>
    let r := rm.save_revision sk a d now
    let rs := saveSeq r.1 rest
    (rs.1, r.2 :: rs.2)

/-! ## apply_edits_to_skeleton (`app.py` lines 194-238) -/

/-- One proposed edit from the edit LLM's JSON (`edits` entries). -/
structure Edit where
  slide_num : Nat
  object_id : String
  object_name : String
  new_content : String
deriving DecidableEq

/-- The edit LLM's parsed response payload (the `summary` field is not
used by `apply_edits_to_skeleton`). -/
structure EditData where
  edits : List Edit
deriving DecidableEq

/-- Pass 1's per-object condition:
`(edit_object_id and obj_id == edit_object_id) or (edit_object_name and obj_name == edit_object_name)`
(empty strings are falsy in Python). -/
def editMatchesObj (edit_object_id edit_object_name : String) (obj : SlideObject) : Bool :=
  (edit_object_id != "" && obj.object_id == edit_object_id) ||
  (edit_object_name != "" && obj.object_name == edit_object_name)

/-- The in-place update performed on a matched object:
`obj["generated_content"] = new_content; obj["validation_status"] = "edited_by_agent"`. -/
def applyToObj (new_content : String) (obj : SlideObject) : SlideObject :=
  { obj with generated_content := new_content, validation_status := "edited_by_agent" }

/-- Pass 1's inner loop over one slide's objects: update the first object
matching by id or name, stop at the first match.  Returns the updated
object list and whether a match occurred. -/
def pass1Objects (edit_object_id edit_object_name new_content : String) :
    List SlideObject → List SlideObject × Bool
  | [] => ([], false)
  | obj :: rest =>
    if editMatchesObj edit_object_id edit_object_name obj then
      (applyToObj new_content obj :: rest, true)
    else
      let r := pass1Objects edit_object_id edit_object_name new_content rest
      (obj :: r.1, r.2)

/-- Pass 1's outer loop: scan slides whose stringified `slide_num` equals
the edit's target; stop at the first slide in which an object matched. -/
def pass1Slides (edit_slide_num edit_object_id edit_object_name new_content : String) :
    List Slide → List Slide × Bool
  | [] => ([], false)
  | slide :: rest =>
    if toString slide.slide_num == edit_slide_num then
      let r := pass1Objects edit_object_id edit_object_name new_content slide.slide_objects
      if r.2 then ({ slide with slide_objects := r.1 } :: rest, true)
      else
        let r' := pass1Slides edit_slide_num edit_object_id edit_object_name new_content rest
        ({ slide with slide_objects := r.1 } :: r'.1, r'.2)
    else
      let r' := pass1Slides edit_slide_num edit_object_id edit_object_name new_content rest
      (slide :: r'.1, r'.2)

/-- Pass 2's inner loop: update the first object whose `object_name`
equals the proposed name. -/
def pass2Objects (edit_object_name new_content : String) :
    List SlideObject → List SlideObject × Bool
  | [] => ([], false)
  | obj :: rest =>
    if obj.object_name == edit_object_name then
      (applyToObj new_content obj :: rest, true)
    else
      let r := pass2Objects edit_object_name new_content rest
      (obj :: r.1, r.2)

/-- Pass 2's outer loop: scan all slides ignoring `slide_num`. -/
def pass2Slides (edit_object_name new_content : String) :
    List Slide → List Slide × Bool
  | [] => ([], false)
  | slide :: rest =>
    let r := pass2Objects edit_object_name new_content slide.slide_objects
    if r.2 then ({ slide with slide_objects := r.1 } :: rest, true)
    else
      let r' := pass2Slides edit_object_name new_content rest
      ({ slide with slide_objects := r.1 } :: r'.1, r'.2)

/-- The body of `apply_edits_to_skeleton`'s outer loop for one edit: the
scope override (`if scope_slide_num: edit_slide_num = scope_slide_num`,
with Python truthiness on the optional string), then pass 1, then pass 2
(only if pass 1 found no match and the proposed `object_name` is
non-empty).  Returns the updated skeleton and this edit's contribution to
`applied_count` (0 or 1, since both passes stop at the first match). -/
def applyOneEdit (scope_slide_num : Option String) (skeleton : Skeleton) (edit : Edit) :
    Skeleton × Nat :=
  let edit_slide_num := toString edit.slide_num
  let edit_slide_num :=
    match scope_slide_num with
    | some s => if s != "" then s else edit_slide_num
    | none => edit_slide_num
  let r1 := pass1Slides edit_slide_num edit.object_id edit.object_name edit.new_content skeleton.slides
  if r1.2 then ({ slides := r1.1 }, 1)
  else if edit.object_name != "" then
    let r2 := pass2Slides edit.object_name edit.new_content r1.1
    ({ slides := r2.1 }, if r2.2 then 1 else 0)
  else ({ slides := r1.1 }, 0)

/-- `apply_edits_to_skeleton(edit_data, scope_slide_num)`: fold the
per-edit application over all proposed edits, accumulating
`applied_count`.  The source reads and mutates the global
`deck_state["skeleton"]`; here the skeleton is passed and returned
explicitly. -/
def apply_edits_to_skeleton (edit_data : EditData) (scope_slide_num : Option String)
    (skeleton : Skeleton) : Skeleton × Nat :=
  edit_data.edits.foldl
    (fun acc edit =>
      let r := applyOneEdit scope_slide_num acc.1 edit
      (r.1, acc.2 + r.2))
    (skeleton, 0)

/-! ## ValidatorAgent (`slide_agent.py` lines 21-147) -/

/-- The fixed refusal literal `ValidatorAgent.NO_INFO_MESSAGE`. -/
def NO_INFO_MESSAGE : String := "לא סופק מספיק מידע להצגת תוכן זה."

/-- The validator's verdict dict `{"is_valid": bool, "reason": str, "feedback": str}`. -/
structure ValidationResult where
  is_valid : Bool
  reason : String
  feedback : String
deriving DecidableEq

/-- The affirmative token tuple of `_parse_validation_response`:
`value in ("כן", "yes", "Yes", "כן.")`. -/
def VALID_TOKENS : List String := ["כן", "yes", "Yes", "כן."]

/-- The body of `_parse_validation_response`'s per-line loop: strip the
line, then dispatch on the three fixed prefixes, updating the
corresponding field of the accumulated result. -/
def parseLine (result : ValidationResult) (line : String) : ValidationResult :=
  let line := pyStrip line
  if pyStartswith line "VALID:" then
    { result with is_valid := VALID_TOKENS.contains (pyStrip (pyReplace line "VALID:" "")) }
  else if pyStartswith line "REASON:" then
    { result with reason := pyStrip (pyReplace line "REASON:" "") }
  else if pyStartswith line "FEEDBACK:" then
    { result with feedback := pyStrip (pyReplace line "FEEDBACK:" "") }
  else result

/-- `ValidatorAgent._parse_validation_response`: strip the response, split
into lines, and fold the per-line dispatch over them starting from the
all-invalid default.  The source wraps the loop in `try/except` and on an
exception returns an invalid verdict with a generic reason; the string
operations here are total, so that branch is unreachable in this model
and the fail-closed default is the initial accumulator. -/
def ValidatorAgent._parse_validation_response (response_text : String) : ValidationResult :=
  (pySplitLines (pyStrip response_text)).foldl parseLine
    { is_valid := false, reason := "", feedback := "" }

/-! ## SlideAgent (`slide_agent.py` lines 153-346) -/

/-- The generation loop's result dict `{"content": str, "status": str, "attempts": int}`. -/
structure GenResult where
  content : String
  status : String
  attempts : Nat
deriving DecidableEq

/-- The feedback string built from a failed verdict in
`_generate_with_validation` (the f-string at lines 284-288). -/
def mkValidationFeedback (v : ValidationResult) : String :=
  "⚠️ ניסיון קודם נפסל. סיבה: " ++ v.reason ++ "\n" ++
  "הנחיה לשיפור: " ++ v.feedback ++ "\n" ++
  "אנא תקן את התוכן בהתאם."

/-- The `for attempt in range(1, total_attempts + 1)` loop of
`_generate_with_validation`, with the two model calls abstracted:
`gen feedback` is `_generate_with_llm(...)` for the fixed grounding
inputs, and `val content` is `self.validator.validate(content, ...)`.
`remaining` is the number of attempts still available (so the loop is
structural); `attempt` is the 1-based attempt counter; the second
component of the result is the trace of generated contents, one per
generation call, each of which is immediately validated exactly once. -/
def generateLoopAux (gen : String → String) (val : String → ValidationResult)
    (total_attempts : Nat) : Nat → Nat → String → GenResult × List String
  | 0, _, _ =>
    ({ content := NO_INFO_MESSAGE, status := "failed_validation",
       attempts := total_attempts }, [])
  | remaining + 1, attempt, validation_feedback =>
    let content := gen validation_feedback
    let validation := val content
    if validation.is_valid then
      ({ content := content, status := "validated", attempts := attempt }, [content])
    else
      let validation_feedback :=
        if 0 < remaining then mkValidationFeedback validation else validation_feedback
      let res := generateLoopAux gen val total_attempts remaining (attempt + 1) validation_feedback
      (res.1, content :: res.2)

/-- `SlideAgent._generate_with_validation`: attempt budget
`1 + max_retries`, first attempt with empty feedback.  Returns the result
dict together with the trace of generated contents (its length is the
number of generation calls, which equals the number of validator calls). -/
def SlideAgent._generate_with_validation (gen : String → String)
    (val : String → ValidationResult) (max_retries : Nat) : GenResult × List String :=
  generateLoopAux gen val (1 + max_retries) (1 + max_retries) 1 ""

/-- `SlideAgent._is_title_object`: the lowered `object_name` contains one
of the marker substrings `["תת", "כותרת"]`. -/
def SlideAgent._is_title_object (obj : SlideObject) : Bool :=
  let name := pyLower obj.object_name
  ["תת", "כותרת"].any (fun word => pyContains name word)

/-- `SlideAgent._generate_title`: strip the name, delete each marker
substring (`"כותרת"` then `"תת"`), and collapse whitespace with
`" ".join(name.split())`. -/
def SlideAgent._generate_title (object_name : String) : String :=
  let name := pyStrip object_name
  let name := ["כותרת", "תת"].foldl (fun n word => pyReplace n word "") name
  pyJoinSplit name

/-- `SlideAgent.generate_slide`: for each object, title-like objects get
the deterministic title transform and status `"skipped"` (no LLM call);
all other objects go through the generation/validation loop, whose
oracles `gen`/`val` may depend on the object's `object_description` (the
only per-object input the source passes to the models).  Finally the
slide's `generation_status` is set to `"completed"`. -/
def SlideAgent.generate_slide (gen : String → String → String)
    (val : String → String → ValidationResult) (max_retries : Nat) (slide : Slide) : Slide :=
  let objs := slide.slide_objects.map (fun obj =>
    if SlideAgent._is_title_object obj then
      { obj with generated_content := SlideAgent._generate_title obj.object_name,
                 validation_status := "skipped" }
    else
      let result := (SlideAgent._generate_with_validation
        (gen obj.object_description) (val obj.object_description) max_retries).1
      { obj with generated_content := result.content,
                 validation_status := result.status,
                 validation_attempts := result.attempts })
  { slide with slide_objects := objs, generation_status := "completed" }

/-! ## Lemmas about the two-pass edit matching -/

theorem pass1Objects_not_matched (i n c : String) (objs : List SlideObject)
    (h : ∀ o ∈ objs, editMatchesObj i n o = false) :
    pass1Objects i n c objs = (objs, false) := by
  induction objs with
  | nil => rfl
  | cons o rest ih =>
    have ho : editMatchesObj i n o = false := h o (List.mem_cons_self o rest)
    have hrest := ih (fun o' ho' => h o' (List.mem_cons_of_mem o ho'))
    simp [pass1Objects, ho, hrest]

theorem pass1Objects_spec (i n c : String) (objs : List SlideObject)
    (h : (pass1Objects i n c objs).2 = true) :
    ∃ pre o post, objs = pre ++ o :: post ∧
      (∀ o' ∈ pre, editMatchesObj i n o' = false) ∧
      editMatchesObj i n o = true ∧
      (pass1Objects i n c objs).1 = pre ++ applyToObj c o :: post := by
  induction objs with
  | nil => simp [pass1Objects] at h
  | cons o rest ih =>
    by_cases hm : editMatchesObj i n o = true
    · exact ⟨[], o, rest, by simp, by simp, hm, by simp [pass1Objects, hm]⟩
    · have hm' : editMatchesObj i n o = false := by
        cases hx : editMatchesObj i n o with
        | false => rfl
        | true => exact absurd hx hm
      have h2 : (pass1Objects i n c rest).2 = true := by
        simpa [pass1Objects, hm'] using h
      obtain ⟨pre, o', post, heq, hpre, hmo, hfst⟩ := ih h2
      refine ⟨o :: pre, o', post, by simp [heq], ?_, hmo, ?_⟩
      · intro x hx
        rcases List.mem_cons.mp hx with hx | hx
        · exact hx ▸ hm'
        · exact hpre x hx
      · simp [pass1Objects, hm', hfst]

theorem pass1Objects_matched_of_mem (i n c : String) (objs : List SlideObject)
    (h : ∃ o ∈ objs, editMatchesObj i n o = true) :
    (pass1Objects i n c objs).2 = true := by
  induction objs with
  | nil => simp at h
  | cons o rest ih =>
    by_cases hm : editMatchesObj i n o = true
    · simp [pass1Objects, hm]
    · obtain ⟨o', ho', hmo⟩ := h
      rcases List.mem_cons.mp ho' with rfl | ho'
      · exact absurd hmo hm
      · have hm' : editMatchesObj i n o = false := by
          cases hx : editMatchesObj i n o with
          | false => rfl
          | true => exact absurd hx hm
        simp [pass1Objects, hm', ih ⟨o', ho', hmo⟩]

theorem slide_eta (s : Slide) : { s with slide_objects := s.slide_objects } = s := rfl

theorem pass1Slides_not_matched (num i n c : String) (slides : List Slide)
    (h : ∀ s ∈ slides, (toString s.slide_num == num) = true →
      ∀ o ∈ s.slide_objects, editMatchesObj i n o = false) :
    pass1Slides num i n c slides = (slides, false) := by
  induction slides with
  | nil => rfl
  | cons s rest ih =>
    have hrest := ih (fun s' hs' => h s' (List.mem_cons_of_mem s hs'))
    by_cases hn : (toString s.slide_num == num) = true
    · have hobjs := pass1Objects_not_matched i n c s.slide_objects
        (h s (List.mem_cons_self s rest) hn)
      simp [pass1Slides, hn, hobjs, hrest]
    · have hn' : (toString s.slide_num == num) = false := by
        cases hx : (toString s.slide_num == num) with
        | false => rfl
        | true => exact absurd hx hn
      simp [pass1Slides, hn', hrest]

theorem pass1Slides_spec (num i n c : String) (slides : List Slide)
    (h : (pass1Slides num i n c slides).2 = true) :
    ∃ preS s postS pre o post, slides = preS ++ s :: postS ∧
      (∀ s' ∈ preS, (toString s'.slide_num == num) = true →
        ∀ o' ∈ s'.slide_objects, editMatchesObj i n o' = false) ∧
      (toString s.slide_num == num) = true ∧
      s.slide_objects = pre ++ o :: post ∧
      (∀ o' ∈ pre, editMatchesObj i n o' = false) ∧
      editMatchesObj i n o = true ∧
      (pass1Slides num i n c slides).1 =
        preS ++ { s with slide_objects := pre ++ applyToObj c o :: post } :: postS := by
  induction slides with
  | nil => simp [pass1Slides] at h
  | cons s rest ih =>
    by_cases hn : (toString s.slide_num == num) = true
    · by_cases hm : (pass1Objects i n c s.slide_objects).2 = true
      · obtain ⟨pre, o, post, heq, hpre, hmo, hfst⟩ := pass1Objects_spec i n c s.slide_objects hm
        exact ⟨[], s, rest, pre, o, post, by simp, by simp, hn, heq, hpre, hmo,
          by simp [pass1Slides, hn, hm, hfst]⟩
      · have hm' : (pass1Objects i n c s.slide_objects).2 = false := by
          cases hx : (pass1Objects i n c s.slide_objects).2 with
          | false => rfl
          | true => exact absurd hx hm
        have hnone : ∀ o ∈ s.slide_objects, editMatchesObj i n o = false := by
          intro o ho
          cases hx : editMatchesObj i n o with
          | false => rfl
          | true =>
            exact absurd (pass1Objects_matched_of_mem i n c s.slide_objects ⟨o, ho, hx⟩) hm
        have hfst1 : (pass1Objects i n c s.slide_objects).1 = s.slide_objects := by
          rw [pass1Objects_not_matched i n c s.slide_objects hnone]
        have h2 : (pass1Slides num i n c rest).2 = true := by
          simpa [pass1Slides, hn, hm'] using h
        obtain ⟨preS, s', postS, pre, o, post, heq, hpreS, hn', hobj, hpre, hmo, hfst⟩ := ih h2
        refine ⟨s :: preS, s', postS, pre, o, post, by simp [heq], ?_, hn', hobj, hpre, hmo, ?_⟩
        · intro x hx
          rcases List.mem_cons.mp hx with rfl | hx
          · exact fun _ => hnone
          · exact hpreS x hx
        · simp [pass1Slides, hn, hm', hfst1, hfst, slide_eta]
    · have hn' : (toString s.slide_num == num) = false := by
        cases hx : (toString s.slide_num == num) with
        | false => rfl
        | true => exact absurd hx hn
      have h2 : (pass1Slides num i n c rest).2 = true := by
        simpa [pass1Slides, hn'] using h
      obtain ⟨preS, s', postS, pre, o, post, heq, hpreS, hn2, hobj, hpre, hmo, hfst⟩ := ih h2
      refine ⟨s :: preS, s', postS, pre, o, post, by simp [heq], ?_, hn2, hobj, hpre, hmo, ?_⟩
      · intro x hx
        rcases List.mem_cons.mp hx with rfl | hx
        · intro hcontra
          rw [hn'] at hcontra
          exact absurd hcontra (by simp)
        · exact hpreS x hx
      · simp [pass1Slides, hn', hfst]

theorem pass1Slides_matched_of_mem (num i n c : String) (slides : List Slide)
    (h : ∃ s ∈ slides, (toString s.slide_num == num) = true ∧
      ∃ o ∈ s.slide_objects, editMatchesObj i n o = true) :
    (pass1Slides num i n c slides).2 = true := by
  induction slides with
  | nil => simp at h
  | cons s rest ih =>
    obtain ⟨s', hs', hn, hobj⟩ := h
    rcases List.mem_cons.mp hs' with rfl | hs'
    · have hm := pass1Objects_matched_of_mem i n c s'.slide_objects hobj
      simp [pass1Slides, hn, hm]
    · by_cases hn1 : (toString s.slide_num == num) = true
      · by_cases hm : (pass1Objects i n c s.slide_objects).2 = true
        · simp [pass1Slides, hn1, hm]
        · have hm' : (pass1Objects i n c s.slide_objects).2 = false := by
            cases hx : (pass1Objects i n c s.slide_objects).2 with
            | false => rfl
            | true => exact absurd hx hm
          simp [pass1Slides, hn1, hm', ih ⟨s', hs', hn, hobj⟩]
      · have hn1' : (toString s.slide_num == num) = false := by
          cases hx : (toString s.slide_num == num) with
          | false => rfl
          | true => exact absurd hx hn1
        simp [pass1Slides, hn1', ih ⟨s', hs', hn, hobj⟩]

theorem pass2Objects_not_matched (n c : String) (objs : List SlideObject)
    (h : ∀ o ∈ objs, (o.object_name == n) = false) :
    pass2Objects n c objs = (objs, false) := by
  induction objs with
  | nil => rfl
  | cons o rest ih =>
    have ho := h o (List.mem_cons_self o rest)
    have hrest := ih (fun o' ho' => h o' (List.mem_cons_of_mem o ho'))
    simp [pass2Objects, ho, hrest]

theorem pass2Objects_matched_of_mem (n c : String) (objs : List SlideObject)
    (h : ∃ o ∈ objs, (o.object_name == n) = true) :
    (pass2Objects n c objs).2 = true := by
  induction objs with
  | nil => simp at h
  | cons o rest ih =>
    by_cases hm : (o.object_name == n) = true
    · simp [pass2Objects, hm]
    · obtain ⟨o', ho', hmo⟩ := h
      rcases List.mem_cons.mp ho' with rfl | ho'
      · exact absurd hmo hm
      · have hm' : (o.object_name == n) = false := by
          cases hx : (o.object_name == n) with
          | false => rfl
          | true => exact absurd hx hm
        simp [pass2Objects, hm', ih ⟨o', ho', hmo⟩]

theorem pass2Objects_spec (n c : String) (objs : List SlideObject)
    (h : (pass2Objects n c objs).2 = true) :
    ∃ pre o post, objs = pre ++ o :: post ∧
      (∀ o' ∈ pre, (o'.object_name == n) = false) ∧
      (o.object_name == n) = true ∧
      (pass2Objects n c objs).1 = pre ++ applyToObj c o :: post := by
  induction objs with
  | nil => simp [pass2Objects] at h
  | cons o rest ih =>
    by_cases hm : (o.object_name == n) = true
    · exact ⟨[], o, rest, by simp, by simp, hm, by simp [pass2Objects, hm]⟩
    · have hm' : (o.object_name == n) = false := by
        cases hx : (o.object_name == n) with
        | false => rfl
        | true => exact absurd hx hm
      have h2 : (pass2Objects n c rest).2 = true := by
        simpa [pass2Objects, hm'] using h
      obtain ⟨pre, o', post, heq, hpre, hmo, hfst⟩ := ih h2
      refine ⟨o :: pre, o', post, by simp [heq], ?_, hmo, ?_⟩
      · intro x hx
        rcases List.mem_cons.mp hx with rfl | hx
        · exact hm'
        · exact hpre x hx
      · simp [pass2Objects, hm', hfst]

theorem pass2Slides_not_matched (n c : String) (slides : List Slide)
    (h : ∀ s ∈ slides, ∀ o ∈ s.slide_objects, (o.object_name == n) = false) :
    pass2Slides n c slides = (slides, false) := by
  induction slides with
  | nil => rfl
  | cons s rest ih =>
    have hobjs := pass2Objects_not_matched n c s.slide_objects (h s (List.mem_cons_self s rest))
    have hrest := ih (fun s' hs' => h s' (List.mem_cons_of_mem s hs'))
    simp [pass2Slides, hobjs, hrest]

theorem pass2Slides_spec (n c : String) (slides : List Slide)
    (h : (pass2Slides n c slides).2 = true) :
    ∃ preS s postS pre o post, slides = preS ++ s :: postS ∧
      (∀ s' ∈ preS, ∀ o' ∈ s'.slide_objects, (o'.object_name == n) = false) ∧
      s.slide_objects = pre ++ o :: post ∧
      (∀ o' ∈ pre, (o'.object_name == n) = false) ∧
      (o.object_name == n) = true ∧
      (pass2Slides n c slides).1 =
        preS ++ { s with slide_objects := pre ++ applyToObj c o :: post } :: postS := by
  induction slides with
  | nil => simp [pass2Slides] at h
  | cons s rest ih =>
    by_cases hm : (pass2Objects n c s.slide_objects).2 = true
    · obtain ⟨pre, o, post, heq, hpre, hmo, hfst⟩ := pass2Objects_spec n c s.slide_objects hm
      exact ⟨[], s, rest, pre, o, post, by simp, by simp, heq, hpre, hmo,
        by simp [pass2Slides, hm, hfst]⟩
    · have hm' : (pass2Objects n c s.slide_objects).2 = false := by
        cases hx : (pass2Objects n c s.slide_objects).2 with
        | false => rfl
        | true => exact absurd hx hm
      have hnone : ∀ o ∈ s.slide_objects, (o.object_name == n) = false := by
        intro o ho
        cases hx : (o.object_name == n) with
        | false => rfl
        | true =>
          exact absurd (pass2Objects_matched_of_mem n c s.slide_objects ⟨o, ho, hx⟩) hm
      have hfst1 : (pass2Objects n c s.slide_objects).1 = s.slide_objects := by
        rw [pass2Objects_not_matched n c s.slide_objects hnone]
      have h2 : (pass2Slides n c rest).2 = true := by
        simpa [pass2Slides, hm'] using h
      obtain ⟨preS, s', postS, pre, o, post, heq, hpreS, hobj, hpre, hmo, hfst⟩ := ih h2
      refine ⟨s :: preS, s', postS, pre, o, post, by simp [heq], ?_, hobj, hpre, hmo, ?_⟩
      · intro x hx
        rcases List.mem_cons.mp hx with rfl | hx
        · exact hnone
        · exact hpreS x hx
      · simp [pass2Slides, hm', hfst1, hfst, slide_eta]

theorem pass2Slides_matched_of_mem (n c : String) (slides : List Slide)
    (h : ∃ s ∈ slides, ∃ o ∈ s.slide_objects, (o.object_name == n) = true) :
    (pass2Slides n c slides).2 = true := by
  induction slides with
  | nil => simp at h
  | cons s rest ih =>
    obtain ⟨s', hs', hobj⟩ := h
    rcases List.mem_cons.mp hs' with rfl | hs'
    · have hm := pass2Objects_matched_of_mem n c s'.slide_objects hobj
      simp [pass2Slides, hm]
    · by_cases hm : (pass2Objects n c s.slide_objects).2 = true
      · simp [pass2Slides, hm]
      · have hm' : (pass2Objects n c s.slide_objects).2 = false := by
          cases hx : (pass2Objects n c s.slide_objects).2 with
          | false => rfl
          | true => exact absurd hx hm
        simp [pass2Slides, hm', ih ⟨s', hs', hobj⟩]

/-- Applying a single edit unfolds to `applyOneEdit`. -/
theorem apply_edits_single (e : Edit) (scope : Option String) (sk : Skeleton) :
    apply_edits_to_skeleton ⟨[e]⟩ scope sk = applyOneEdit scope sk e := by
  simp [apply_edits_to_skeleton]

/-- C3: for every deck containing an object with `object_id` "Title 1" on
a slide numbered 2, an unscoped edit addressed by `(slide_num = 2,
object_id = "Title 1")` is applied exactly once, by pass 1, to the first
matching object of the first slide numbered 2 (id-or-name match, first
match wins); every other slide — in particular any slide numbered 1
carrying the same `object_id` — is returned unchanged, and within the
edited slide only the matched object's `generated_content` and
`validation_status` change. -/
theorem spec_C3_slide_scoped_id_match (slides : List Slide) (e : Edit)
    (hnum : e.slide_num = 2) (hid : e.object_id = "Title 1")
    (hexists : ∃ s ∈ slides, s.slide_num = 2 ∧ ∃ o ∈ s.slide_objects, o.object_id = "Title 1") :
    (apply_edits_to_skeleton ⟨[e]⟩ none ⟨slides⟩).2 = 1 ∧
    ∃ preS s postS pre o post,
      slides = preS ++ s :: postS ∧
      (toString s.slide_num == "2") = true ∧
      s.slide_objects = pre ++ o :: post ∧
      editMatchesObj e.object_id e.object_name o = true ∧
      (apply_edits_to_skeleton ⟨[e]⟩ none ⟨slides⟩).1.slides =
        preS ++ { s with slide_objects := pre ++ applyToObj e.new_content o :: post } :: postS := by
  obtain ⟨s0, hs0, hs0num, o0, ho0, ho0id⟩ := hexists
  have htos : toString e.slide_num = "2" := by rw [hnum]; decide
  have hm0 : editMatchesObj e.object_id e.object_name o0 = true := by
    simp [editMatchesObj, hid, ho0id]
  have hsnum : (toString s0.slide_num == "2") = true := by rw [hs0num]; decide
  have hm : (pass1Slides "2" e.object_id e.object_name e.new_content slides).2 = true :=
    pass1Slides_matched_of_mem "2" e.object_id e.object_name e.new_content slides
      ⟨s0, hs0, hsnum, o0, ho0, hm0⟩
  have happ : apply_edits_to_skeleton ⟨[e]⟩ none ⟨slides⟩ =
      ({ slides := (pass1Slides "2" e.object_id e.object_name e.new_content slides).1 }, 1) := by
    rw [apply_edits_single]
    simp only [applyOneEdit, htos]
    rw [if_pos hm]
  obtain ⟨preS, s, postS, pre, o, post, heq, _, hn, hobj, _, hmo, hfst⟩ :=
    pass1Slides_spec "2" e.object_id e.object_name e.new_content slides hm
  refine ⟨by rw [happ], preS, s, postS, pre, o, post, heq, hn, hobj, hmo, ?_⟩
  rw [happ]
  exact hfst

/-- C3 witness: a two-slide deck where both slides carry an object with
`object_id` "Title 1"; the edit targets slide 2 and lands there only. -/
theorem spec_C3_slide_scoped_id_match_witness :
    (apply_edits_to_skeleton ⟨[⟨2, "Title 1", "", "new"⟩]⟩ none
      ⟨[⟨1, "s1", [⟨"Title 1", "שם אחד", "", "old1", "validated", 1⟩], "completed"⟩,
        ⟨2, "s2", [⟨"Title 1", "שם שתיים", "", "old2", "validated", 1⟩], "completed"⟩]⟩).2 = 1 ∧
    ∃ preS s postS pre o post,
      [⟨1, "s1", [⟨"Title 1", "שם אחד", "", "old1", "validated", 1⟩], "completed"⟩,
       (⟨2, "s2", [⟨"Title 1", "שם שתיים", "", "old2", "validated", 1⟩], "completed"⟩ : Slide)] =
        preS ++ s :: postS ∧
      (toString s.slide_num == "2") = true ∧
      s.slide_objects = pre ++ o :: post ∧
      editMatchesObj "Title 1" "" o = true ∧
      (apply_edits_to_skeleton ⟨[⟨2, "Title 1", "", "new"⟩]⟩ none
        ⟨[⟨1, "s1", [⟨"Title 1", "שם אחד", "", "old1", "validated", 1⟩], "completed"⟩,
          ⟨2, "s2", [⟨"Title 1", "שם שתיים", "", "old2", "validated", 1⟩], "completed"⟩]⟩).1.slides =
        preS ++ { s with slide_objects := pre ++ applyToObj "new" o :: post } :: postS :=
  spec_C3_slide_scoped_id_match _ _ rfl rfl (by decide)

/-- C4: an edit whose proposed `slide_num` matches no slide (so pass 1
finds nothing) but whose non-empty `object_name` occurs as the
`object_name` of exactly one object in the deck is applied by pass 2 to
an object bearing that name (searching all slides, ignoring
`slide_num`), writing `new_content` and status `edited_by_agent`;
everything else is unchanged. -/
theorem spec_C4_pass2_fallback (slides : List Slide) (e : Edit)
    (hnoslide : ∀ s ∈ slides, (toString s.slide_num == toString e.slide_num) = false)
    (hname : e.object_name ≠ "")
    (hexists : ∃ s ∈ slides, ∃ o ∈ s.slide_objects, o.object_name = e.object_name)
    (_huniq : (slides.map
      (fun s => s.slide_objects.countP (fun o => o.object_name == e.object_name))).sum = 1) :
    (apply_edits_to_skeleton ⟨[e]⟩ none ⟨slides⟩).2 = 1 ∧
    ∃ preS s postS pre o post,
      slides = preS ++ s :: postS ∧
      s.slide_objects = pre ++ o :: post ∧
      o.object_name = e.object_name ∧
      (apply_edits_to_skeleton ⟨[e]⟩ none ⟨slides⟩).1.slides =
        preS ++ { s with slide_objects := pre ++ applyToObj e.new_content o :: post } :: postS := by
  have hp1 : pass1Slides (toString e.slide_num) e.object_id e.object_name e.new_content slides
      = (slides, false) := by
    apply pass1Slides_not_matched
    intro s hs hcontra
    rw [hnoslide s hs] at hcontra
    exact absurd hcontra (by simp)
  obtain ⟨s0, hs0, o0, ho0, ho0n⟩ := hexists
  have hm : (pass2Slides e.object_name e.new_content slides).2 = true :=
    pass2Slides_matched_of_mem e.object_name e.new_content slides
      ⟨s0, hs0, o0, ho0, by simp [ho0n]⟩
  have hbne : (e.object_name != "") = true := by simp [hname]
  have happ : apply_edits_to_skeleton ⟨[e]⟩ none ⟨slides⟩ =
      ({ slides := (pass2Slides e.object_name e.new_content slides).1 }, 1) := by
    rw [apply_edits_single]
    simp only [applyOneEdit, hp1]
    simp [hbne, hm]
  obtain ⟨preS, s, postS, pre, o, post, heq, _, hobj, _, hmo, hfst⟩ :=
    pass2Slides_spec e.object_name e.new_content slides hm
  refine ⟨by rw [happ], preS, s, postS, pre, o, post, heq, hobj, by simpa using hmo, ?_⟩
  rw [happ]
  exact hfst

/-- C4 witness: the edit names slide 7, which does not exist; pass 2
finds the uniquely named object on slide 1. -/
theorem spec_C4_pass2_fallback_witness :
    (apply_edits_to_skeleton ⟨[⟨7, "zzz", "שם אחד", "new"⟩]⟩ none
      ⟨[⟨1, "s1", [⟨"Title 1", "שם אחד", "", "old1", "validated", 1⟩], "completed"⟩,
        ⟨2, "s2", [⟨"Title 1", "שם שתיים", "", "old2", "validated", 1⟩], "completed"⟩]⟩).2 = 1 ∧
    ∃ preS s postS pre o post,
      [⟨1, "s1", [⟨"Title 1", "שם אחד", "", "old1", "validated", 1⟩], "completed"⟩,
       (⟨2, "s2", [⟨"Title 1", "שם שתיים", "", "old2", "validated", 1⟩], "completed"⟩ : Slide)] =
        preS ++ s :: postS ∧
      s.slide_objects = pre ++ o :: post ∧
      o.object_name = "שם אחד" ∧
      (apply_edits_to_skeleton ⟨[⟨7, "zzz", "שם אחד", "new"⟩]⟩ none
        ⟨[⟨1, "s1", [⟨"Title 1", "שם אחד", "", "old1", "validated", 1⟩], "completed"⟩,
          ⟨2, "s2", [⟨"Title 1", "שם שתיים", "", "old2", "validated", 1⟩], "completed"⟩]⟩).1.slides =
        preS ++ { s with slide_objects := pre ++ applyToObj "new" o :: post } :: postS :=
  spec_C4_pass2_fallback _ _ (by decide) (by decide) (by decide) (by decide)

/-- C7: an edit whose proposed `object_name` occurs nowhere in the deck
and whose `object_id` matches no object on any slide whose number equals
the edit's target applies zero edits and leaves the skeleton structurally
unchanged. -/
theorem spec_C7_no_match_frame (slides : List Slide) (e : Edit)
    (hname : ∀ s ∈ slides, ∀ o ∈ s.slide_objects, o.object_name ≠ e.object_name)
    (hid : ∀ s ∈ slides, (toString s.slide_num == toString e.slide_num) = true →
      ∀ o ∈ s.slide_objects, o.object_id ≠ e.object_id) :
    apply_edits_to_skeleton ⟨[e]⟩ none ⟨slides⟩ = (⟨slides⟩, 0) := by
  have hp1 : pass1Slides (toString e.slide_num) e.object_id e.object_name e.new_content slides
      = (slides, false) := by
    apply pass1Slides_not_matched
    intro s hs hn o ho
    have h1 : (o.object_id == e.object_id) = false := by
      simp [hid s hs hn o ho]
    have h2 : (o.object_name == e.object_name) = false := by
      simp [hname s hs o ho]
    simp [editMatchesObj, h1, h2]
  have hp2 : pass2Slides e.object_name e.new_content slides = (slides, false) := by
    apply pass2Slides_not_matched
    intro s hs o ho
    simp [hname s hs o ho]
  rw [apply_edits_single]
  simp only [applyOneEdit, hp1]
  by_cases hb : (e.object_name != "") = true
  · simp [hb, hp2]
  · simp [hb]

/-- C7 witness: an edit with an unknown `object_name` and an `object_id`
absent from the targeted slide leaves the deck unchanged with count 0. -/
theorem spec_C7_no_match_frame_witness :
    apply_edits_to_skeleton ⟨[⟨2, "nope", "לא קיים", "new"⟩]⟩ none
      ⟨[⟨1, "s1", [⟨"Title 1", "שם אחד", "", "old1", "validated", 1⟩], "completed"⟩,
        ⟨2, "s2", [⟨"Title 1", "שם שתיים", "", "old2", "validated", 1⟩], "completed"⟩]⟩ =
    (⟨[⟨1, "s1", [⟨"Title 1", "שם אחד", "", "old1", "validated", 1⟩], "completed"⟩,
       ⟨2, "s2", [⟨"Title 1", "שם שתיים", "", "old2", "validated", 1⟩], "completed"⟩]⟩, 0) :=
  spec_C7_no_match_frame _ _ (by decide) (by decide)

/-- C10 (implicit): slide-scoped editing is not confined to the scoped
slide.  If the scope override names slide `t` and neither the proposed
`object_id` nor `object_name` matches any object on a slide numbered `t`,
but the non-empty `object_name` matches an object on some other slide,
then pass 2 — which ignores the scope entirely — applies the edit to an
object on a slide whose number is not `t`. -/
theorem spec_C10_scope_escape (slides : List Slide) (e : Edit) (t : String)
    (ht : t ≠ "")
    (hscoped : ∀ s ∈ slides, (toString s.slide_num == t) = true →
      ∀ o ∈ s.slide_objects, editMatchesObj e.object_id e.object_name o = false)
    (hname : e.object_name ≠ "")
    (hexists : ∃ s ∈ slides, (toString s.slide_num == t) = false ∧
      ∃ o ∈ s.slide_objects, o.object_name = e.object_name) :
    (apply_edits_to_skeleton ⟨[e]⟩ (some t) ⟨slides⟩).2 = 1 ∧
    ∃ preS s postS pre o post,
      slides = preS ++ s :: postS ∧
      (toString s.slide_num == t) = false ∧
      s.slide_objects = pre ++ o :: post ∧
      o.object_name = e.object_name ∧
      (apply_edits_to_skeleton ⟨[e]⟩ (some t) ⟨slides⟩).1.slides =
        preS ++ { s with slide_objects := pre ++ applyToObj e.new_content o :: post } :: postS := by
  have htb : (t != "") = true := by simp [ht]
  have hp1 : pass1Slides t e.object_id e.object_name e.new_content slides = (slides, false) :=
    pass1Slides_not_matched t e.object_id e.object_name e.new_content slides hscoped
  obtain ⟨s0, hs0, hs0t, o0, ho0, ho0n⟩ := hexists
  have hm : (pass2Slides e.object_name e.new_content slides).2 = true :=
    pass2Slides_matched_of_mem e.object_name e.new_content slides
      ⟨s0, hs0, o0, ho0, by simp [ho0n]⟩
  have hbne : (e.object_name != "") = true := by simp [hname]
  have happ : apply_edits_to_skeleton ⟨[e]⟩ (some t) ⟨slides⟩ =
      ({ slides := (pass2Slides e.object_name e.new_content slides).1 }, 1) := by
    rw [apply_edits_single]
    simp only [applyOneEdit, htb, if_true]
    simp only [hp1]
    simp [hbne, hm]
  obtain ⟨preS, s, postS, pre, o, post, heq, _, hobj, _, hmo, hfst⟩ :=
    pass2Slides_spec e.object_name e.new_content slides hm
  have hon : o.object_name = e.object_name := by simpa using hmo
  have hsmem : s ∈ slides := by rw [heq]; exact List.mem_append_right _ (List.mem_cons_self s postS)
  have homem : o ∈ s.slide_objects := by
    rw [hobj]; exact List.mem_append_right _ (List.mem_cons_self o post)
  have hst : (toString s.slide_num == t) = false := by
    cases hx : (toString s.slide_num == t) with
    | false => rfl
    | true =>
      have := hscoped s hsmem hx o homem
      rw [editMatchesObj] at this
      simp [hname, hon] at this
  refine ⟨by rw [happ], preS, s, postS, pre, o, post, heq, hst, hobj, hon, ?_⟩
  rw [happ]
  exact hfst

/-- C10 witness: scoped to slide 2, where nothing matches; the edit lands
on slide 1 via the name fallback. -/
theorem spec_C10_scope_escape_witness :
    (apply_edits_to_skeleton ⟨[⟨2, "zzz", "שם אחד", "new"⟩]⟩ (some "2")
      ⟨[⟨1, "s1", [⟨"Title 1", "שם אחד", "", "old1", "validated", 1⟩], "completed"⟩,
        ⟨2, "s2", [⟨"Title 1", "שם שתיים", "", "old2", "validated", 1⟩], "completed"⟩]⟩).2 = 1 ∧
    ∃ preS s postS pre o post,
      [⟨1, "s1", [⟨"Title 1", "שם אחד", "", "old1", "validated", 1⟩], "completed"⟩,
       (⟨2, "s2", [⟨"Title 1", "שם שתיים", "", "old2", "validated", 1⟩], "completed"⟩ : Slide)] =
        preS ++ s :: postS ∧
      (toString s.slide_num == "2") = false ∧
      s.slide_objects = pre ++ o :: post ∧
      o.object_name = "שם אחד" ∧
      (apply_edits_to_skeleton ⟨[⟨2, "zzz", "שם אחד", "new"⟩]⟩ (some "2")
        ⟨[⟨1, "s1", [⟨"Title 1", "שם אחד", "", "old1", "validated", 1⟩], "completed"⟩,
          ⟨2, "s2", [⟨"Title 1", "שם שתיים", "", "old2", "validated", 1⟩], "completed"⟩]⟩).1.slides =
        preS ++ { s with slide_objects := pre ++ applyToObj "new" o :: post } :: postS :=
  spec_C10_scope_escape _ _ "2" (by decide) (by decide) (by decide) (by decide)

/-! ## Lemmas about the revision manager -/

theorem save_revision_counter (rm : RevisionManager) (sk : Skeleton) (a d now : String) :
    (rm.save_revision sk a d now).1.current_revision_id = rm.current_revision_id + 1 := by
  simp only [RevisionManager.save_revision]

theorem save_revision_ret (rm : RevisionManager) (sk : Skeleton) (a d now : String) :
    (rm.save_revision sk a d now).2 = rm.current_revision_id + 1 := by
  simp only [RevisionManager.save_revision]

theorem saveSeq_counter (inputs : List (Skeleton × String × String × String)) :
    ∀ rm : RevisionManager,
      (saveSeq rm inputs).1.current_revision_id = rm.current_revision_id + inputs.length := by
  induction inputs with
  | nil => intro rm; simp [saveSeq]
  | cons x rest ih =>
    intro rm
    obtain ⟨sk, a, d, now⟩ := x
    simp only [saveSeq]
    rw [ih, save_revision_counter]
    simp only [List.length_cons]
    omega

theorem saveSeq_ids (inputs : List (Skeleton × String × String × String)) :
    ∀ rm : RevisionManager,
      (saveSeq rm inputs).2 = List.range' (rm.current_revision_id + 1) inputs.length := by
  induction inputs with
  | nil => intro rm; simp [saveSeq]
  | cons x rest ih =>
    intro rm
    obtain ⟨sk, a, d, now⟩ := x
    simp only [saveSeq, List.length_cons]
    rw [ih, save_revision_ret, save_revision_counter, List.range'_succ]

/-- The shape of the retained revision-id list after `c` saves on a fresh
manager: all ids `1..c` while `c ≤ MAX_REVISIONS`; afterwards the anchor
id 1 followed by the newest `MAX_REVISIONS - 1` ids. -/
def expectedIds (c : Nat) : List Nat :=
  if c ≤ MAX_REVISIONS then List.range' 1 c
  else 1 :: List.range' (c - (MAX_REVISIONS - 2)) (MAX_REVISIONS - 1)

theorem expectedIds_length (c : Nat) : (expectedIds c).length = min c MAX_REVISIONS := by
  by_cases h : c ≤ MAX_REVISIONS
  · simp [expectedIds, h, Nat.min_eq_left h]
  · have h' : MAX_REVISIONS ≤ c := Nat.le_of_not_le h
    simp only [expectedIds, if_neg h, List.length_cons, List.length_range']
    rw [Nat.min_eq_right h']
    decide

theorem expectedIds_def (k : Nat) :
    expectedIds k = if k ≤ 30 then List.range' 1 k else 1 :: List.range' (k - 28) 29 := rfl

theorem save_revision_ids_step (rm : RevisionManager) (sk : Skeleton) (a d now : String)
    (c : Nat) (hc : rm.current_revision_id = c)
    (hids : rm.revisions.map Revision.revision_id = expectedIds c) :
    (rm.save_revision sk a d now).1.current_revision_id = c + 1 ∧
    (rm.save_revision sk a d now).1.revisions.map Revision.revision_id = expectedIds (c + 1) := by
  refine ⟨by rw [save_revision_counter, hc], ?_⟩
  have hlen : rm.revisions.length = min c 30 := by
    have h := congrArg List.length hids
    rw [List.length_map, expectedIds_def] at h
    by_cases hc30 : c ≤ 30
    · rw [h, if_pos hc30, List.length_range', Nat.min_eq_left hc30]
    · rw [h, if_neg hc30]
      have h30 : 30 ≤ c := by omega
      simp [Nat.min_eq_right h30]
  simp only [RevisionManager.save_revision, MAX_REVISIONS, hc]
  by_cases hsmall : c + 1 ≤ 30
  · have hc30 : c ≤ 30 := by omega
    have hlen' : (rm.revisions ++ [⟨c + 1, now, a, d, sk⟩] : List Revision).length = c + 1 := by
      simp [hlen, Nat.min_eq_left hc30]
    rw [if_neg (by rw [hlen']; omega)]
    rw [List.map_append, hids, List.map_singleton, expectedIds_def, if_pos hc30,
      expectedIds_def, if_pos hsmall]
    rw [List.range'_1_concat 1 c]
    simp [Nat.add_comm]
  · have hcge : 30 ≤ c := by omega
    have hlenL : rm.revisions.length = 30 := by rw [hlen, Nat.min_eq_right hcge]
    have hlen' : (rm.revisions ++ [⟨c + 1, now, a, d, sk⟩] : List Revision).length = 31 := by
      simp [hlenL]
    rw [if_pos (by rw [hlen']; omega), hlen']
    have hdropidx : (31 : Nat) - (30 - 1) = 2 := by decide
    rw [hdropidx]
    rw [List.map_append, List.map_take, List.map_drop, List.map_append, hids, List.map_singleton]
    have hexp' : expectedIds (c + 1) = 1 :: List.range' (c - 27) 29 := by
      rw [expectedIds_def, if_neg (by omega)]
      have h2 : c + 1 - 28 = c - 27 := by omega
      rw [h2]
    rw [hexp']
    by_cases hceq : c = 30
    · subst hceq
      rw [expectedIds_def, if_pos (by omega)]
      have hfull : List.range' 1 30 ++ [31] = List.range' 1 31 := by
        have h := List.range'_1_concat 1 30
        simpa using h.symm
      rw [hfull]
      have h31 : List.range' 1 31 = 1 :: 2 :: List.range' 3 29 := by
        rw [List.range'_succ 1 30, List.range'_succ 2 29]
      rw [h31]
      simp
    · have hcgt : 30 < c := by omega
      rw [expectedIds_def, if_neg (by omega)]
      have hconcat : List.range' (c - 28) 29 ++ [c + 1] = List.range' (c - 28) 30 := by
        have h := List.range'_1_concat (c - 28) 29
        have h2 : c - 28 + 29 = c + 1 := by omega
        rw [h2] at h
        exact h.symm
      have hfull : 1 :: List.range' (c - 28) 29 ++ [c + 1]
          = 1 :: List.range' (c - 28) 30 := by
        simp [hconcat]
      rw [hfull]
      have h30 : List.range' (c - 28) 30 = (c - 28) :: List.range' (c - 27) 29 := by
        have h := List.range'_succ (c - 28) 29 1
        have h2 : c - 28 + 1 = c - 27 := by omega
        rw [h2] at h
        exact h
      rw [h30]
      simp

theorem saveSeq_ids_invariant (inputs : List (Skeleton × String × String × String)) :
    ∀ (rm : RevisionManager) (c : Nat), rm.current_revision_id = c →
      rm.revisions.map Revision.revision_id = expectedIds c →
      (saveSeq rm inputs).1.current_revision_id = c + inputs.length ∧
      (saveSeq rm inputs).1.revisions.map Revision.revision_id
        = expectedIds (c + inputs.length) := by
  induction inputs with
  | nil =>
    intro rm c hc hids
    exact ⟨by simpa [saveSeq] using hc, by simpa [saveSeq] using hids⟩
  | cons x rest ih =>
    intro rm c hc hids
    obtain ⟨sk, a, d, now⟩ := x
    obtain ⟨hc', hids'⟩ := save_revision_ids_step rm sk a d now c hc hids
    obtain ⟨h1, h2⟩ := ih (rm.save_revision sk a d now).1 (c + 1) hc' hids'
    simp only [saveSeq, List.length_cons]
    refine ⟨by rw [h1]; omega, ?_⟩
    rw [h2]
    congr 1
    omega

/-- C6: on a fresh manager, the revision ids returned by any sequence of
`save_revision` calls are exactly `1, 2, …, n` — strictly increasing,
starting at 1, and never reused or renumbered (the id counter is
independent of the pruning of the retained list). -/
theorem spec_C6_ids_monotonic (inputs : List (Skeleton × String × String × String)) :
    (saveSeq RevisionManager.init inputs).2 = List.range' 1 inputs.length ∧
    List.Pairwise (· < ·) (saveSeq RevisionManager.init inputs).2 ∧
    (inputs ≠ [] → (saveSeq RevisionManager.init inputs).2.head? = some 1) := by
  have h : (saveSeq RevisionManager.init inputs).2 = List.range' 1 inputs.length :=
    saveSeq_ids inputs RevisionManager.init
  refine ⟨h, ?_, ?_⟩
  · rw [h]
    exact List.pairwise_lt_range' 1 inputs.length
  · intro hne
    rw [h]
    cases inputs with
    | nil => exact absurd rfl hne
    | cons x rest => rw [List.length_cons, List.range'_succ]; rfl

/-- C6 witness: two saves return ids `[1, 2]`, pairwise increasing, first id 1. -/
theorem spec_C6_ids_monotonic_witness :
    (saveSeq RevisionManager.init [(⟨[]⟩, "a", "d", "t"), (⟨[]⟩, "b", "e", "u")]).2
      = List.range' 1 2 ∧
    (saveSeq RevisionManager.init [(⟨[]⟩, "a", "d", "t"), (⟨[]⟩, "b", "e", "u")]).2.head?
      = some 1 :=
  ⟨(spec_C6_ids_monotonic _).1,
   (spec_C6_ids_monotonic [(⟨[]⟩, "a", "d", "t"), (⟨[]⟩, "b", "e", "u")]).2.2 (by decide)⟩

/-- C2: after any sequence of saves on a fresh manager, the retained list
never exceeds `MAX_REVISIONS` entries; while at most `MAX_REVISIONS`
saves have happened it holds every id `1..n`, and once more than
`MAX_REVISIONS` saves have happened it holds exactly the anchor id 1
followed by the ids of the `MAX_REVISIONS − 1` most recent saves
(`n − 28 .. n` for `MAX_REVISIONS = 30`).  Quantifying over all input
sequences makes this a statement about the state after *each* save. -/
theorem spec_C2_bounded_history_with_anchor (inputs : List (Skeleton × String × String × String)) :
    (saveSeq RevisionManager.init inputs).1.revisions.length ≤ MAX_REVISIONS ∧
    (inputs.length ≤ MAX_REVISIONS →
      (saveSeq RevisionManager.init inputs).1.revisions.map Revision.revision_id
        = List.range' 1 inputs.length) ∧
    (MAX_REVISIONS < inputs.length →
      (saveSeq RevisionManager.init inputs).1.revisions.map Revision.revision_id
        = 1 :: List.range' (inputs.length - (MAX_REVISIONS - 2)) (MAX_REVISIONS - 1)) := by
  obtain ⟨_, hids⟩ := saveSeq_ids_invariant inputs RevisionManager.init 0 rfl rfl
  rw [Nat.zero_add] at hids
  refine ⟨?_, ?_, ?_⟩
  · have h := congrArg List.length hids
    rw [List.length_map, expectedIds_length] at h
    rw [h]
    exact Nat.min_le_right _ _
  · intro hle
    rw [hids, expectedIds_def, if_pos (show inputs.length ≤ 30 from hle)]
  · intro hgt
    rw [hids, expectedIds_def,
      if_neg (show ¬inputs.length ≤ 30 from Nat.not_le.mpr hgt)]
    rfl

/-- C2 witness: after 31 saves the retained ids are `1, 3, 4, …, 31`
(anchor 1 plus the 29 newest), and the length bound holds. -/
theorem spec_C2_bounded_history_with_anchor_witness :
    (saveSeq RevisionManager.init
        (List.replicate 31 (⟨[]⟩, "a", "d", "t"))).1.revisions.length ≤ MAX_REVISIONS ∧
    (saveSeq RevisionManager.init
        (List.replicate 31 (⟨[]⟩, "a", "d", "t"))).1.revisions.map Revision.revision_id
      = 1 :: List.range' (31 - (MAX_REVISIONS - 2)) (MAX_REVISIONS - 1) :=
  ⟨(spec_C2_bounded_history_with_anchor _).1,
   (spec_C2_bounded_history_with_anchor (List.replicate 31 (⟨[]⟩, "a", "d", "t"))).2.2
     (by decide)⟩

/-- `find?` over a list whose only satisfying element is the appended
last one returns that element. -/
theorem find?_append_last {α : Type} (p : α → Bool) (pre : List α) (r : α)
    (hpre : ∀ x ∈ pre, p x = false) (hr : p r = true) :
    (pre ++ [r]).find? p = some r := by
  induction pre with
  | nil => simp [List.find?, hr]
  | cons x rest ih =>
    have hx := hpre x (List.mem_cons_self x rest)
    rw [List.cons_append, List.find?]
    rw [hx]
    exact ih (fun y hy => hpre y (List.mem_cons_of_mem x hy))

/-- The retained list after a save, written out (pure unfolding of the
`let`-bindings of `save_revision`). -/
theorem save_revision_revisions (rm : RevisionManager) (sk : Skeleton) (a d now : String) :
    (rm.save_revision sk a d now).1.revisions =
      (if MAX_REVISIONS <
          (rm.revisions ++ [⟨rm.current_revision_id + 1, now, a, d, sk⟩] : List Revision).length
       then (rm.revisions ++ [⟨rm.current_revision_id + 1, now, a, d, sk⟩] : List Revision).take 1
            ++ (rm.revisions ++ [⟨rm.current_revision_id + 1, now, a, d, sk⟩] : List Revision).drop
              ((rm.revisions ++ [⟨rm.current_revision_id + 1, now, a, d, sk⟩] : List Revision).length
                - (MAX_REVISIONS - 1))
       else rm.revisions ++ [⟨rm.current_revision_id + 1, now, a, d, sk⟩]) := rfl

/-- C5: restoring the id just returned by a save yields a deck deeply
equal to the saved one.  The hypothesis is the reachable-state invariant
that every retained revision's id is at most the current counter (true of
every manager produced by the API, which only appends fresh ids). -/
theorem spec_C5_save_restore_roundtrip (rm : RevisionManager) (sk : Skeleton) (a d now : String)
    (hinv : ∀ r ∈ rm.revisions, r.revision_id ≤ rm.current_revision_id) :
    (rm.save_revision sk a d now).1.restore_revision (rm.save_revision sk a d now).2
      = some sk := by
  have hret : (rm.save_revision sk a d now).2 = rm.current_revision_id + 1 :=
    save_revision_ret rm sk a d now
  rw [RevisionManager.restore_revision, RevisionManager.get_revision, hret,
    save_revision_revisions]
  have key : ∀ pre : List Revision, (∀ x ∈ pre, x ∈ rm.revisions) →
      ((pre ++ [(⟨rm.current_revision_id + 1, now, a, d, sk⟩ : Revision)]).find?
        (fun rev => rev.revision_id == rm.current_revision_id + 1)).map Revision.snapshot
      = some sk := by
    intro pre hsub
    rw [find?_append_last]
    · rfl
    · intro x hx
      have hle := hinv x (hsub x hx)
      have hne : x.revision_id ≠ rm.current_revision_id + 1 := by omega
      simp [hne]
    · simp
  by_cases hbig : MAX_REVISIONS <
      (rm.revisions ++ [(⟨rm.current_revision_id + 1, now, a, d, sk⟩ : Revision)]).length
  · rw [if_pos hbig]
    have hlen : rm.revisions.length + 1 =
        (rm.revisions ++ [(⟨rm.current_revision_id + 1, now, a, d, sk⟩ : Revision)]).length := by
      simp
    have hL : MAX_REVISIONS ≤ rm.revisions.length := by omega
    have h30 : (30 : Nat) ≤ rm.revisions.length := hL
    have htake : (rm.revisions ++ [(⟨rm.current_revision_id + 1, now, a, d, sk⟩ : Revision)]).take 1
        = rm.revisions.take 1 :=
      List.take_append_of_le_length (by omega)
    have hkle : (rm.revisions ++ [(⟨rm.current_revision_id + 1, now, a, d, sk⟩ : Revision)]).length
        - (MAX_REVISIONS - 1) ≤ rm.revisions.length := by
      rw [← hlen]
      have : (MAX_REVISIONS : Nat) = 30 := rfl
      omega
    have hdrop : (rm.revisions ++ [(⟨rm.current_revision_id + 1, now, a, d, sk⟩ : Revision)]).drop
          ((rm.revisions ++ [(⟨rm.current_revision_id + 1, now, a, d, sk⟩ : Revision)]).length
            - (MAX_REVISIONS - 1))
        = rm.revisions.drop
          ((rm.revisions ++ [(⟨rm.current_revision_id + 1, now, a, d, sk⟩ : Revision)]).length
            - (MAX_REVISIONS - 1))
          ++ [(⟨rm.current_revision_id + 1, now, a, d, sk⟩ : Revision)] :=
      List.drop_append_of_le_length hkle
    rw [htake, hdrop, ← List.append_assoc]
    apply key
    intro x hx
    rcases List.mem_append.mp hx with hx | hx
    · exact List.take_subset 1 rm.revisions hx
    · exact List.drop_subset _ rm.revisions hx
  · rw [if_neg hbig]
    exact key rm.revisions (fun x hx => hx)

/-- C5 witness: a fresh manager (trivially satisfying the id invariant),
one save, one restore. -/
theorem spec_C5_save_restore_roundtrip_witness :
    ((RevisionManager.init.save_revision ⟨[⟨1, "d", [], "pending"⟩]⟩ "a" "b" "t").1.restore_revision
      (RevisionManager.init.save_revision ⟨[⟨1, "d", [], "pending"⟩]⟩ "a" "b" "t").2)
    = some ⟨[⟨1, "d", [], "pending"⟩]⟩ :=
  spec_C5_save_restore_roundtrip RevisionManager.init _ "a" "b" "t" (by decide)

/-! ## Lemmas about the generation retry loop -/

theorem generateLoopAux_spec (gen : String → String) (val : String → ValidationResult)
    (T : Nat) : ∀ (r attempt : Nat) (fb : String),
    (generateLoopAux gen val T r attempt fb).2.length ≤ r ∧
    ((generateLoopAux gen val T r attempt fb).1.status = "validated" ∨
      (generateLoopAux gen val T r attempt fb).1.status = "failed_validation") ∧
    ((generateLoopAux gen val T r attempt fb).1.status = "validated" →
      ∃ pre, (generateLoopAux gen val T r attempt fb).2
          = pre ++ [(generateLoopAux gen val T r attempt fb).1.content] ∧
        (∀ c ∈ pre, (val c).is_valid = false) ∧
        (val (generateLoopAux gen val T r attempt fb).1.content).is_valid = true ∧
        (generateLoopAux gen val T r attempt fb).1.attempts = attempt + pre.length) ∧
    ((generateLoopAux gen val T r attempt fb).1.status = "failed_validation" →
      (generateLoopAux gen val T r attempt fb).1
          = ⟨NO_INFO_MESSAGE, "failed_validation", T⟩ ∧
      (generateLoopAux gen val T r attempt fb).2.length = r ∧
      ∀ c ∈ (generateLoopAux gen val T r attempt fb).2, (val c).is_valid = false) := by
  intro r
  induction r with
  | zero =>
    intro attempt fb
    refine ⟨by simp [generateLoopAux], Or.inr rfl, ?_, ?_⟩
    · intro hcontra
      simp [generateLoopAux] at hcontra
    · intro _
      exact ⟨rfl, rfl, by simp [generateLoopAux]⟩
  | succ r ih =>
    intro attempt fb
    by_cases hv : (val (gen fb)).is_valid = true
    · have hunf : generateLoopAux gen val T (r + 1) attempt fb
          = (⟨gen fb, "validated", attempt⟩, [gen fb]) := by
        simp only [generateLoopAux]
        rw [if_pos hv]
      rw [hunf]
      refine ⟨by simp, Or.inl rfl, ?_, ?_⟩
      · intro _
        exact ⟨[], by simp, by simp, hv, by simp⟩
      · intro hcontra
        simp at hcontra
    · have hv' : (val (gen fb)).is_valid = false := by
        cases hx : (val (gen fb)).is_valid with
        | false => rfl
        | true => exact absurd hx hv
      have hunf : generateLoopAux gen val T (r + 1) attempt fb
          = ((generateLoopAux gen val T r (attempt + 1)
              (if 0 < r then mkValidationFeedback (val (gen fb)) else fb)).1,
             gen fb :: (generateLoopAux gen val T r (attempt + 1)
              (if 0 < r then mkValidationFeedback (val (gen fb)) else fb)).2) := by
        simp only [generateLoopAux]
        rw [if_neg (by rw [hv']; simp)]
      obtain ⟨ihlen, ihdi, ihval, ihfail⟩ :=
        ih (attempt + 1) (if 0 < r then mkValidationFeedback (val (gen fb)) else fb)
      rw [hunf]
      refine ⟨by simpa using Nat.succ_le_succ ihlen, ihdi, ?_, ?_⟩
      · intro hst
        obtain ⟨pre, htr, hpre, hcv, hat⟩ := ihval hst
        refine ⟨gen fb :: pre, by simp [htr], ?_, hcv, ?_⟩
        · intro c hc
          rcases List.mem_cons.mp hc with rfl | hc
          · exact hv'
          · exact hpre c hc
        · rw [hat]
          simp only [List.length_cons]
          omega
      · intro hst
        obtain ⟨hres, hlen, hall⟩ := ihfail hst
        refine ⟨hres, by simp [hlen], ?_⟩
        intro c hc
        rcases List.mem_cons.mp hc with rfl | hc
        · exact hv'
        · exact hall c hc

/-- C1: for every pair of generation/validation oracles, the retry loop
makes at most `1 + max_retries` generation calls, each immediately
followed by exactly one validation call (the returned trace lists the
generated contents, one entry per generation-and-validation pair); it
returns at the first valid verdict with status `validated`, the validated
content, and `attempts` equal to the number of attempts made; and if
every verdict is invalid it makes exactly `1 + max_retries` calls of each
kind and returns the fixed refusal literal `NO_INFO_MESSAGE` with status
`failed_validation` and `attempts = 1 + max_retries` (3 for
`max_retries = 2`).  The loop is a total function, so it never raises on
validation failure. -/
theorem spec_C1_retry_loop (gen : String → String) (val : String → ValidationResult)
    (max_retries : Nat) :
    (SlideAgent._generate_with_validation gen val max_retries).2.length ≤ 1 + max_retries ∧
    ((SlideAgent._generate_with_validation gen val max_retries).1.status = "validated" ∨
      (SlideAgent._generate_with_validation gen val max_retries).1.status
        = "failed_validation") ∧
    ((SlideAgent._generate_with_validation gen val max_retries).1.status = "validated" →
      ∃ pre, (SlideAgent._generate_with_validation gen val max_retries).2
          = pre ++ [(SlideAgent._generate_with_validation gen val max_retries).1.content] ∧
        (∀ c ∈ pre, (val c).is_valid = false) ∧
        (val (SlideAgent._generate_with_validation gen val max_retries).1.content).is_valid
          = true ∧
        (SlideAgent._generate_with_validation gen val max_retries).1.attempts
          = (SlideAgent._generate_with_validation gen val max_retries).2.length) ∧
    ((SlideAgent._generate_with_validation gen val max_retries).1.status = "failed_validation" →
      (SlideAgent._generate_with_validation gen val max_retries).1
          = ⟨NO_INFO_MESSAGE, "failed_validation", 1 + max_retries⟩ ∧
      (SlideAgent._generate_with_validation gen val max_retries).2.length = 1 + max_retries) ∧
    ((∀ c, (val c).is_valid = false) →
      (SlideAgent._generate_with_validation gen val max_retries).1
          = ⟨NO_INFO_MESSAGE, "failed_validation", 1 + max_retries⟩ ∧
      (SlideAgent._generate_with_validation gen val max_retries).2.length = 1 + max_retries) := by
  simp only [SlideAgent._generate_with_validation]
  obtain ⟨hlen, hdi, hval, hfail⟩ :=
    generateLoopAux_spec gen val (1 + max_retries) (1 + max_retries) 1 ""
  refine ⟨hlen, hdi, ?_, ?_, ?_⟩
  · intro hst
    obtain ⟨pre, htr, hpre, hcv, hat⟩ := hval hst
    refine ⟨pre, htr, hpre, hcv, ?_⟩
    rw [hat, htr]
    simp [Nat.add_comm]
  · intro hst
    obtain ⟨hres, hlen', _⟩ := hfail hst
    exact ⟨hres, hlen'⟩
  · intro hall
    have hst : (SlideAgent._generate_with_validation gen val max_retries).1.status
        = "failed_validation" := by
      rcases hdi with hst | hst
      · obtain ⟨_, _, _, hcv, _⟩ := hval hst
        rw [hall _] at hcv
        exact absurd hcv (by simp)
      · exact hst
    obtain ⟨hres, hlen', _⟩ := hfail hst
    exact ⟨hres, hlen'⟩

/-- C1 witness: an always-invalid validator with `max_retries = 2` yields
exactly 3 generation calls, the refusal literal, status
`failed_validation`, and attempts 3. -/
theorem spec_C1_retry_loop_witness :
    (SlideAgent._generate_with_validation (fun _ => "c")
        (fun _ => ⟨false, "r", "f"⟩) 2).1
      = ⟨NO_INFO_MESSAGE, "failed_validation", 3⟩ ∧
    (SlideAgent._generate_with_validation (fun _ => "c")
        (fun _ => ⟨false, "r", "f"⟩) 2).2.length = 3 :=
  (spec_C1_retry_loop (fun _ => "c") (fun _ => ⟨false, "r", "f"⟩) 2).2.2.2.2
    (fun _ => rfl)

/-- C8: the title transform is pure and deterministic.  For every object
recognised as title-like (its lowered `object_name` contains one of the
marker substrings "כותרת" or "תת"), `generate_slide` writes
`_generate_title object_name` — the name with the marker substrings
deleted and whitespace collapsed — into `generated_content` and sets
`validation_status` to `"skipped"`, for *every* pair of LLM oracles (so
no LLM call influences the result); and
`_generate_title "כותרת ראשית" = "ראשית"`. -/
theorem spec_C8_title_shortcut (gen : String → String → String)
    (val : String → String → ValidationResult) (max_retries : Nat) (slide : Slide)
    (i : Nat) (hi : i < slide.slide_objects.length)
    (ht : SlideAgent._is_title_object (slide.slide_objects.get ⟨i, hi⟩) = true) :
    SlideAgent._generate_title "כותרת ראשית" = "ראשית" ∧
    ∀ hi' : i < (SlideAgent.generate_slide gen val max_retries slide).slide_objects.length,
      (SlideAgent.generate_slide gen val max_retries slide).slide_objects.get ⟨i, hi'⟩ =
        { slide.slide_objects.get ⟨i, hi⟩ with
          generated_content :=
            SlideAgent._generate_title (slide.slide_objects.get ⟨i, hi⟩).object_name,
          validation_status := "skipped" } := by
  refine ⟨by decide, ?_⟩
  intro hi'
  rw [List.get_eq_getElem] at ht ⊢
  rw [List.get_eq_getElem]
  simp only [SlideAgent.generate_slide] at hi' ⊢
  rw [List.getElem_map]
  rw [if_pos ht]

/-- C8 witness: a one-object slide with a title-like name; the oracles
always answer, yet the object gets the stripped name and `skipped`. -/
theorem spec_C8_title_shortcut_witness :
    SlideAgent._generate_title "כותרת ראשית" = "ראשית" ∧
    (SlideAgent.generate_slide (fun _ _ => "llm") (fun _ _ => ⟨true, "", ""⟩) 2
        ⟨3, "d", [⟨"Title 1", "כותרת ראשית", "od", "", "pending", 0⟩], "pending"⟩).slide_objects.get
      ⟨0, by decide⟩ = ⟨"Title 1", "כותרת ראשית", "od", "ראשית", "skipped", 0⟩ := by
  have h := spec_C8_title_shortcut (fun _ _ => "llm") (fun _ _ => ⟨true, "", ""⟩) 2
    ⟨3, "d", [⟨"Title 1", "כותרת ראשית", "od", "", "pending", 0⟩], "pending"⟩ 0
    (by decide) (by decide)
  exact ⟨h.1, (h.2 (by decide)).trans (by decide)⟩

/-! ## Lemmas about the validator response parser -/

theorem parseLine_valid {l : String} (h : pyStartswith (pyStrip l) "VALID:" = true)
    (r : ValidationResult) :
    parseLine r l =
      { r with is_valid := VALID_TOKENS.contains (pyStrip (pyReplace (pyStrip l) "VALID:" "")) } := by
  simp only [parseLine]
  rw [if_pos h]

theorem parseLine_reason {l : String} (h1 : pyStartswith (pyStrip l) "VALID:" = false)
    (h2 : pyStartswith (pyStrip l) "REASON:" = true) (r : ValidationResult) :
    parseLine r l = { r with reason := pyStrip (pyReplace (pyStrip l) "REASON:" "") } := by
  simp only [parseLine]
  rw [if_neg (by simp [h1]), if_pos h2]

theorem parseLine_feedback {l : String} (h1 : pyStartswith (pyStrip l) "VALID:" = false)
    (h2 : pyStartswith (pyStrip l) "REASON:" = false)
    (h3 : pyStartswith (pyStrip l) "FEEDBACK:" = true) (r : ValidationResult) :
    parseLine r l = { r with feedback := pyStrip (pyReplace (pyStrip l) "FEEDBACK:" "") } := by
  simp only [parseLine]
  rw [if_neg (by simp [h1]), if_neg (by simp [h2]), if_pos h3]

theorem parse_foldl_valid (ls : List String) : ∀ r0 : ValidationResult,
    (ls.foldl parseLine r0).is_valid = true →
    (∃ l ∈ ls, pyStartswith (pyStrip l) "VALID:" = true ∧
      VALID_TOKENS.contains (pyStrip (pyReplace (pyStrip l) "VALID:" "")) = true) ∨
    r0.is_valid = true := by
  induction ls with
  | nil => intro r0 h; exact Or.inr h
  | cons l rest ih =>
    intro r0 h
    rcases ih (parseLine r0 l) h with hex | hbase
    · obtain ⟨l', hl', hp⟩ := hex
      exact Or.inl ⟨l', List.mem_cons_of_mem l hl', hp⟩
    · by_cases hv : pyStartswith (pyStrip l) "VALID:" = true
      · rw [parseLine_valid hv] at hbase
        exact Or.inl ⟨l, List.mem_cons_self l rest, hv, by simpa using hbase⟩
      · right
        have hv' : pyStartswith (pyStrip l) "VALID:" = false := by
          cases hx : pyStartswith (pyStrip l) "VALID:" with
          | false => rfl
          | true => exact absurd hx hv
        simp only [parseLine] at hbase
        rw [if_neg (by simp [hv'])] at hbase
        by_cases hr : pyStartswith (pyStrip l) "REASON:" = true
        · rw [if_pos hr] at hbase
          simpa using hbase
        · rw [if_neg hr] at hbase
          by_cases hf : pyStartswith (pyStrip l) "FEEDBACK:" = true
          · rw [if_pos hf] at hbase
            simpa using hbase
          · rw [if_neg hf] at hbase
            exact hbase

/-- C9: the parser is fail-closed: `is_valid` can be `true` only when
some line of the (stripped, newline-split) response starts — after
stripping — with the fixed prefix `VALID:` and carries one of the
explicit affirmative tokens; every other input (in particular a response
with no `VALID:` line) yields `is_valid = false`, which is also the
initial accumulator the `try/except` fallback returns.  And the order of
the three prefixed lines does not matter: for any lines carrying exactly
the `VALID:`, `REASON:` and `FEEDBACK:` prefixes respectively, all six
orders of the per-line fold produce the same verdict. -/
theorem spec_C9_fail_closed_parsing :
    (∀ s : String, (ValidatorAgent._parse_validation_response s).is_valid = true →
      ∃ l ∈ pySplitLines (pyStrip s),
        pyStartswith (pyStrip l) "VALID:" = true ∧
        VALID_TOKENS.contains (pyStrip (pyReplace (pyStrip l) "VALID:" "")) = true) ∧
    (∀ lv lr lf : String,
      pyStartswith (pyStrip lv) "VALID:" = true →
      pyStartswith (pyStrip lr) "VALID:" = false →
      pyStartswith (pyStrip lr) "REASON:" = true →
      pyStartswith (pyStrip lf) "VALID:" = false →
      pyStartswith (pyStrip lf) "REASON:" = false →
      pyStartswith (pyStrip lf) "FEEDBACK:" = true →
      ∀ ls ∈ [[lv, lr, lf], [lv, lf, lr], [lr, lv, lf], [lr, lf, lv], [lf, lv, lr], [lf, lr, lv]],
        ls.foldl parseLine ⟨false, "", ""⟩ =
          ⟨VALID_TOKENS.contains (pyStrip (pyReplace (pyStrip lv) "VALID:" "")),
           pyStrip (pyReplace (pyStrip lr) "REASON:" ""),
           pyStrip (pyReplace (pyStrip lf) "FEEDBACK:" "")⟩) := by
  constructor
  · intro s h
    rcases parse_foldl_valid (pySplitLines (pyStrip s)) ⟨false, "", ""⟩ h with hex | hbase
    · exact hex
    · exact absurd hbase (by simp)
  · intro lv lr lf hv h1r h2r h1f h2f h3f ls hls
    have hrwv := parseLine_valid hv
    have hrwr := parseLine_reason h1r h2r
    have hrwf := parseLine_feedback h1f h2f h3f
    fin_cases hls <;>
      simp only [List.foldl, hrwv, hrwr, hrwf]

/-- C9 witness: a three-line response is parsed to a valid verdict, and
permuting the three lines gives the same result. -/
theorem spec_C9_fail_closed_parsing_witness :
    (∃ l ∈ pySplitLines (pyStrip "VALID: כן\nREASON: r\nFEEDBACK: f"),
        pyStartswith (pyStrip l) "VALID:" = true ∧
        VALID_TOKENS.contains (pyStrip (pyReplace (pyStrip l) "VALID:" "")) = true) ∧
    ["REASON: r", "VALID: כן", "FEEDBACK: f"].foldl parseLine ⟨false, "", ""⟩
      = ⟨true, "r", "f"⟩ := by
  constructor
  · exact spec_C9_fail_closed_parsing.1 "VALID: כן\nREASON: r\nFEEDBACK: f" (by decide)
  · have h := spec_C9_fail_closed_parsing.2 "VALID: כן" "REASON: r" "FEEDBACK: f"
      (by decide) (by decide) (by decide) (by decide) (by decide) (by decide)
      ["REASON: r", "VALID: כן", "FEEDBACK: f"] (by simp)
    exact h.trans (by decide)
